import Mathlib

/-!
Verification development for the Job Copilot MVP backend
(`backend/app/main.py`).  The Python functions of the field-answering
subsystem are shallowly embedded as Lean definitions: strings are lists
of characters, floating-point confidences are rationals, the external
chat-completion service and the process environment are explicit
parameters, and exceptions are `Except` values.
-/

set_option maxHeartbeats 1000000

/-- Python strings, modelled as lists of characters. -/
abbrev Str := List Char

/-- ASCII whitespace, the characters matched by the regex class used in
`normalize_text` and by `str.strip()`. -/
def isSpaceChar (c : Char) : Bool :=
  c.toNat = 32 || (9 ≤ c.toNat && c.toNat ≤ 13)

/-- Characters kept by the sanitising regex `[^a-z0-9\s]` of
`normalize_text`, apart from whitespace: lowercase letters and digits. -/
def isLowerAlnum (c : Char) : Bool :=
  (97 ≤ c.toNat && c.toNat ≤ 122) || (48 ≤ c.toNat && c.toNat ≤ 57)

/-- Uppercase ASCII letters, the characters changed by `str.lower()`. -/
def isUpperAlpha (c : Char) : Bool :=
  65 ≤ c.toNat && c.toNat ≤ 90

/-- `str.lower()` on one character. -/
def lowerChar (c : Char) : Char :=
  if isUpperAlpha c then Char.ofNat (c.toNat + 32) else c

/-- One character of `re.sub(r"[^a-z0-9\s]", " ", text)`: characters that
are neither lowercase alphanumerics nor whitespace become a space. -/
def sanitizeChar (c : Char) : Char :=
  if isLowerAlnum c || isSpaceChar c then c else ' '

/-- `re.sub(r"\s+", " ", text)`: every maximal run of whitespace becomes a
single space character. -/
def collapseWs : Str → Str
  | [] => []
  | [c] => [if isSpaceChar c then ' ' else c]
  | c1 :: c2 :: rest =>
    if isSpaceChar c1 && isSpaceChar c2 then collapseWs (c2 :: rest)
    else (if isSpaceChar c1 then ' ' else c1) :: collapseWs (c2 :: rest)

/-- Python `str.strip()`: drop whitespace from both ends. -/
def stripChars (l : Str) : Str :=
  ((l.dropWhile isSpaceChar).reverse.dropWhile isSpaceChar).reverse

/-- `normalize_text` from `backend/app/main.py`: lowercase, replace every
character outside `[a-z0-9\s]` by a space, collapse whitespace runs to
single spaces, strip. -/
def normalize_text (text : Str) : Str :=
  stripChars (collapseWs ((text.map lowerChar).map sanitizeChar))

/-- `clamp_confidence` from `backend/app/main.py`. -/
def clamp_confidence (score : ℚ) : ℚ :=
  max 0 (min 1 score)

/-- Python's substring test `needle in hay`. -/
def containsSub (needle : Str) : Str → Bool
  | [] => needle.isPrefixOf []
  | c :: rest => needle.isPrefixOf (c :: rest) || containsSub needle rest

/-- Python's `a or b` for an optional string operand (`None` and `""` are
falsy). -/
def pyOrStr (s : Option Str) (d : Str) : Str :=
  match s with
  | some v => if v = [] then d else v
  | none => d

/-- Python's `a or b` for string operands (`""` is falsy). -/
def pyOrS (a : Str) (d : Str) : Str :=
  if a = [] then d else a

/-! ## Data model (the pydantic models of `backend/app/main.py`) -/
/-- `PersonalInfo`. -/
structure PersonalInfo where
  first_name : Str
  last_name : Str
  email : Str
  phone : Str
  location : Str
deriving DecidableEq, Repr

/-- `Links`. -/
structure Links where
  linkedin : Str := []
  github : Str := []
  portfolio : Str := []
deriving DecidableEq, Repr

/-- `WorkAuth`. -/
structure WorkAuth where
  need_sponsorship : Bool := false
  work_authorization : Str := []
deriving DecidableEq, Repr

/-- `ExperienceItem`. -/
structure ExperienceItem where
  company : Str
  title : Str
  start_date : Str := []
  end_date : Str := []
  location : Str := []
  summary : Str := []
deriving DecidableEq, Repr

/-- `EducationItem`. -/
structure EducationItem where
  school : Str
  degree : Str
  start_date : Str := []
  end_date : Str := []
deriving DecidableEq, Repr

/-- `Documents`. -/
structure Documents where
  resume_url : Str := []
  cover_letter_url : Str := []
deriving DecidableEq, Repr

/-- `Profile`. -/
structure Profile where
  personal : PersonalInfo
  links : Links
  work_auth : WorkAuth
  experience : List ExperienceItem := []
  education : List EducationItem := []
  skills : List Str := []
  documents : Documents
deriving DecidableEq, Repr

/-- The dynamically-typed `Any` payload of a field value: a JSON-ish value.
Heuristic answers always carry `str`; an external reply may carry anything. -/
inductive AnsValue where
  | str (s : Str)
  | boolean (b : Bool)
  | number (n : Int)
  | nullv
  | other (tag : Nat)
deriving DecidableEq, Repr

/-- `AiFieldQuestion`. -/
structure AiFieldQuestion where
  field_id : Str
  label : Str
  field_type : Str
  required : Bool := false
  options : List Str := []
  current_value : AnsValue := .nullv
deriving DecidableEq, Repr

/-- `AiFieldAnswer`.  Confidence is modelled as a rational. -/
structure AiFieldAnswer where
  field_id : Str
  value : AnsValue := .str []
  confidence : ℚ := 0
  reason : Str := []
  source : Str := "inferred".toList
deriving DecidableEq, Repr

/-- `AiAnswerRequest`. -/
structure AiAnswerRequest where
  site : Str
  job_url : Str
  job_title : Str := []
  company : Str := []
  job_description : Str := []
  fields : List AiFieldQuestion := []
  profile : Option Profile := none
deriving DecidableEq, Repr

/-- `AiAnswerResponse`. -/
structure AiAnswerResponse where
  answers : List AiFieldAnswer := []
  used_llm : Bool := false
  model : Str := []
  message : Str := []
deriving DecidableEq, Repr

/-! ## String literals appearing in the source -/
/-- Literal `"sponsor"`. -/
def sponsorS : Str := "sponsor".toList

/-- Literal `"authorized to work"`. -/
def authorizedToWorkS : Str := "authorized to work".toList

/-- Literal `"work authorization"`. -/
def workAuthorizationS : Str := "work authorization".toList

/-- Literal `"linkedin"`. -/
def linkedinS : Str := "linkedin".toList

/-- Literal `"github"`. -/
def githubS : Str := "github".toList

/-- Literal `"portfolio"`. -/
def portfolioS : Str := "portfolio".toList

/-- Literal `"location"`. -/
def locationS : Str := "location".toList

/-- Literal `"Yes"`. -/
def yesS : Str := "Yes".toList

/-- Literal `"No"`. -/
def noS : Str := "No".toList

/-- Literal `"profile"`, the heuristic answers' source tag. -/
def profileSourceS : Str := "profile".toList

/-- Reason string of the sponsorship intent. -/
def reasonSponsorS : Str := "Derived from profile.work_auth.need_sponsorship.".toList

/-- Reason string of the work-authorization intent. -/
def reasonAuthS : Str := "Derived from profile.work_auth.work_authorization.".toList

/-- Reason string of the LinkedIn intent. -/
def reasonLinkedinS : Str := "Copied from profile.links.linkedin.".toList

/-- Reason string of the GitHub intent. -/
def reasonGithubS : Str := "Copied from profile.links.github.".toList

/-- Reason string of the portfolio intent. -/
def reasonPortfolioS : Str := "Copied from profile.links.portfolio.".toList

/-- Reason string of the location intent. -/
def reasonLocationS : Str := "Copied from profile.personal.location.".toList

/-- Default model name `"gpt-4.1-mini"`. -/
def defaultModelS : Str := "gpt-4.1-mini".toList

/-- The fixed heuristic-only notice written into `message` when no API key
is configured. -/
def noKeyNoticeS : Str := "OPENAI_API_KEY not set. Returned heuristic answers only.".toList

/-! ## Heuristic Answer Engine -/
/-- Inner search of `pick_best_option`: given the precomputed
`(option, normalized_option)` pairs, iterate over the preferred terms
(outer loop) and, for each, over the options in order (inner loop),
returning the first original option whose normalized text contains the
nonempty normalized term as a substring. -/
def pickFrom (normalized_options : List (Str × Str)) : List Str → Option Str
  | [] => none
  | term :: rest =>
    match normalized_options.find? (fun po =>
        !(normalize_text term).isEmpty && containsSub (normalize_text term) po.2) with
    | some po => some po.1
    | none => pickFrom normalized_options rest

/-- `pick_best_option` from `backend/app/main.py`: filter out options that
are blank after stripping, pair each with its normalization, then scan
terms (outer) and options (inner), returning the first hit. -/
def pick_best_option (options : List Str) (terms : List Str) : Option Str :=
  let normalized_options :=
    (options.filter (fun o => !(stripChars o).isEmpty)).map (fun o => (o, normalize_text o))
  pickFrom normalized_options terms

/-- The `if`/`elif` chain of the loop body of `build_heuristic_answers`:
computes `(value, confidence, reason)` for one field, or `none` when no
intent matched (`value is None`). -/
def heuristic_vcr (profile : Profile) (field : AiFieldQuestion) : Option (AnsValue × ℚ × Str) :=
  let label := normalize_text field.label
  let options := field.options
  if containsSub sponsorS label then
    let preferred := if profile.work_auth.need_sponsorship then yesS else noS
    let selected := pick_best_option options [preferred]
    some (.str (pyOrStr selected preferred), 0.82, reasonSponsorS)
  else if containsSub authorizedToWorkS label || containsSub workAuthorizationS label then
    let authorization := stripChars profile.work_auth.work_authorization
    let selected := pick_best_option options [authorization, yesS]
    some (.str (pyOrStr selected (pyOrS authorization yesS)), 0.78, reasonAuthS)
  else if containsSub linkedinS label && !profile.links.linkedin.isEmpty then
    some (.str profile.links.linkedin, 0.9, reasonLinkedinS)
  else if containsSub githubS label && !profile.links.github.isEmpty then
    some (.str profile.links.github, 0.9, reasonGithubS)
  else if containsSub portfolioS label && !profile.links.portfolio.isEmpty then
    some (.str profile.links.portfolio, 0.9, reasonPortfolioS)
  else if containsSub locationS label && !profile.personal.location.isEmpty then
    some (.str profile.personal.location, 0.82, reasonLocationS)
  else
    none

/-- The per-field body of the loop of `build_heuristic_answers`: the
`if`/`elif` chain computing `(value, confidence, reason)` for one field,
and the final construction (with `clamp_confidence`) — or `none` when no
intent matched (`value is None` → `continue`). -/
def heuristic_field (profile : Profile) (field : AiFieldQuestion) : Option AiFieldAnswer :=
  (heuristic_vcr profile field).map (fun vcr =>
    { field_id := field.field_id, value := vcr.1,
      confidence := clamp_confidence vcr.2.1, reason := vcr.2.2,
      source := profileSourceS })

/-- `build_heuristic_answers` from `backend/app/main.py`: the loop appends
one answer per field for which an intent fired, in field order. -/
def build_heuristic_answers (profile : Profile) (fields : List AiFieldQuestion) :
    List AiFieldAnswer :=
  fields.filterMap (heuristic_field profile)

/-! ## LLM Answer Client -/
/-- The relevant process environment: `os.getenv` results.  A `none`
optional variable means the variable is unset, so `os.getenv` returns the
documented default. -/
structure Env where
  OPENAI_API_KEY : Str := []
  OPENAI_MODEL : Option Str := none
  OPENAI_API_BASE : Option Str := none
deriving DecidableEq, Repr

/-- One element of the external reply's `answers` array, as seen by the
per-item `AiFieldAnswer.model_validate` step: either it validates to an
answer or it fails validation. -/
inductive RawItem where
  | valid (answer : AiFieldAnswer)
  | invalid
deriving DecidableEq, Repr

/-- The behaviour of the external chat-completion exchange for one
request: an HTTP error (caught as `urllib.error.HTTPError`), any other
transport failure, a reply whose top-level JSON cannot be parsed, or a
successfully parsed reply carrying the items of its `answers` array. -/
inductive LLMWorld where
  | httpError (code : Nat) (body : Str)
  | requestFailed (msg : Str)
  | parseFailure (msg : Str)
  | ok (items : List RawItem)
deriving DecidableEq, Repr

/-- Per-item validation and clamping step of
`call_openai_for_field_answers`: validated items get their confidence
clamped; invalid items are dropped individually. -/
def validateAnswerItem : RawItem → Option AiFieldAnswer
  | .valid a => some { a with confidence := clamp_confidence a.confidence }
  | .invalid => none

/-- The `job` object of the user payload built by
`call_openai_for_field_answers` (lines 254–260): job metadata with the
job description truncated to its first 12000 characters. -/
structure UserPayloadJob where
  site : Str
  job_url : Str
  job_title : Str
  company : Str
  job_description : Str
deriving DecidableEq, Repr

/-- The whole user payload (lines 252–262): profile, job object, fields. -/
structure UserPayload where
  profile : Profile
  job : UserPayloadJob
  fields : List AiFieldQuestion
deriving DecidableEq, Repr

/-- Construction of the user payload sent to the external API. -/
def build_user_payload (request : AiAnswerRequest) (profile : Profile) : UserPayload :=
  { profile := profile,
    job := { site := request.site,
             job_url := request.job_url,
             job_title := request.job_title,
             company := request.company,
             job_description := request.job_description.take 12000 },
    fields := request.fields }

/-- Message of the `RuntimeError` raised on `urllib.error.HTTPError`:
`"OpenAI API error ({code}): {details[:500]}"`. -/
def httpErrorMsg (code : Nat) (body : Str) : Str :=
  "OpenAI API error (".toList ++ (toString code).toList ++ "): ".toList ++ body.take 500

/-- Message of the `RuntimeError` raised on other transport failures. -/
def requestFailedMsg (msg : Str) : Str :=
  "OpenAI request failed: ".toList ++ msg

/-- Message of the `RuntimeError` raised when the reply cannot be parsed. -/
def parseFailureMsg (msg : Str) : Str :=
  "Could not parse OpenAI response: ".toList ++ msg

/-- `call_openai_for_field_answers` from `backend/app/main.py`.  The
external exchange is a `LLMWorld` parameter; `RuntimeError` is an
`Except.error` carrying the message.  With no API key configured the
function returns `([], "")` without touching the world. -/
def call_openai_for_field_answers (env : Env) (world : LLMWorld)
    (request : AiAnswerRequest) (profile : Profile) :
    Except Str (List AiFieldAnswer × Str) :=
  let api_key := stripChars env.OPENAI_API_KEY
  if api_key = [] then .ok ([], [])
  else
    let model := match env.OPENAI_MODEL with
      | some m => m
      | none => defaultModelS
    let _payload := build_user_payload request profile
    match world with
    | .httpError code body => .error (httpErrorMsg code body)
    | .requestFailed msg => .error (requestFailedMsg msg)
    | .parseFailure msg => .error (parseFailureMsg msg)
    | .ok items => .ok (items.filterMap validateAnswerItem, model)

/-! ## Answer Merge Policy and the endpoint -/
/-- A Python `dict[str, AiFieldAnswer]`: an insertion-ordered association
list with unique keys. -/
abbrev AnswerMap := List (Str × AiFieldAnswer)

/-- Python `dict` assignment `m[k] = v`: update in place if the key
exists (keeping its position), otherwise append. -/
def insertAns (m : AnswerMap) (k : Str) (v : AiFieldAnswer) : AnswerMap :=
  match m with
  | [] => [(k, v)]
  | (k', v') :: rest => if k' = k then (k', v) :: rest else (k', v') :: insertAns rest k v

/-- Python `dict.get`. -/
def lookupAns : AnswerMap → Str → Option AiFieldAnswer
  | [], _ => none
  | (k, v) :: rest, key => if k = key then some v else lookupAns rest key

/-- The dict comprehension `{answer.field_id: answer for answer in answers}`. -/
def dictOfAnswers (answers : List AiFieldAnswer) : AnswerMap :=
  answers.foldl (fun m a => insertAns m a.field_id a) []

/-- One iteration of the merge loop of `ai_answer_fields`: overwrite the
entry for `answer.field_id` if no entry exists or the LLM answer's
confidence is at least the existing one's. -/
def mergeStep (m : AnswerMap) (answer : AiFieldAnswer) : AnswerMap :=
  match lookupAns m answer.field_id with
  | none => insertAns m answer.field_id answer
  | some existing =>
    if existing.confidence ≤ answer.confidence then insertAns m answer.field_id answer
    else m

/-- The whole merge loop over the LLM answers. -/
def mergeAnswers (m : AnswerMap) (llm_answers : List AiFieldAnswer) : AnswerMap :=
  llm_answers.foldl mergeStep m

/-- `profile = request.profile or profile_store` from `ai_answer_fields`
(a pydantic model object is always truthy, so this is exactly the
`Option` fallback). -/
def effectiveProfile (profile_store : Profile) (request : AiAnswerRequest) : Profile :=
  match request.profile with
  | some p => p
  | none => profile_store

/-- `ai_answer_fields` from `backend/app/main.py` (the `POST
/ai/answer-fields` handler): heuristic answers seed the map; the LLM call
either succeeds (merge loop, `used_llm` iff it returned answers) or
raises `RuntimeError` (message recorded, map left heuristic-only); with
no API key the message is overwritten by the fixed notice. -/
def ai_answer_fields (env : Env) (world : LLMWorld) (profile_store : Profile)
    (request : AiAnswerRequest) : AiAnswerResponse :=
  let profile := effectiveProfile profile_store request
  let heuristic_answers := build_heuristic_answers profile request.fields
  let answer_map := dictOfAnswers heuristic_answers
  match call_openai_for_field_answers env world request profile with
  | .ok (llm_answers, model_name) =>
    { answers := (mergeAnswers answer_map llm_answers).map Prod.snd,
      used_llm := !llm_answers.isEmpty,
      model := model_name,
      message := if stripChars env.OPENAI_API_KEY = [] then noKeyNoticeS else [] }
  | .error msg =>
    { answers := answer_map.map Prod.snd,
      used_llm := false,
      model := [],
      message := if stripChars env.OPENAI_API_KEY = [] then noKeyNoticeS else msg }

/-! ## Shared concrete fixtures used by witnesses and counterexamples -/
/-- A sample stored profile. -/
def sampleProfile : Profile :=
  { personal := { first_name := [], last_name := [], email := [], phone := [],
                  location := "Berlin".toList },
    links := { linkedin := "https://linkedin.com/in/x".toList },
    work_auth := { need_sponsorship := true, work_authorization := [] },
    documents := {} }

/-- An environment with an API key configured. -/
def keyEnv : Env := { OPENAI_API_KEY := "k".toList }

/-- An environment whose API key is whitespace only, hence blank after
stripping. -/
def blankKeyEnv : Env := { OPENAI_API_KEY := "  ".toList }

/-- A request with no fields. -/
def emptyRequest : AiAnswerRequest := { site := [], job_url := [] }

/-- Literal `"boom"`. -/
def boomS : Str := "boom".toList

/-- A world in which the external transport fails. -/
def failWorld : LLMWorld := .requestFailed boomS

/-- A request whose job description is 12001 characters long. -/
def longRequest : AiAnswerRequest :=
  { site := [], job_url := [], job_description := List.replicate 12001 'a' }

/-- An externally reported answer with confidence above one. -/
def overItem : AiFieldAnswer :=
  { field_id := "f1".toList, value := .str [], confidence := 1.5 }

/-- An externally reported answer with negative confidence. -/
def underItem : AiFieldAnswer :=
  { field_id := "f2".toList, value := .str [], confidence := -0.3 }

/-- A world returning the two out-of-range items. -/
def clampWorld : LLMWorld := .ok [.valid overItem, .valid underItem]

/-! ## Association-map lemmas (Python dict semantics) -/
/-- Keys of an answer map, in insertion order. -/
def ansKeys (m : AnswerMap) : List Str :=
  m.map Prod.fst

/-- Field ids of a list of answers. -/
def ansIds (answers : List AiFieldAnswer) : List Str :=
  answers.map AiFieldAnswer.field_id

/-- Field ids of a list of field questions. -/
def fieldIds (fields : List AiFieldQuestion) : List Str :=
  fields.map AiFieldQuestion.field_id

/-- Every entry of a map built by the handler stores an answer whose
`field_id` equals its key. -/
def AnswerMapWF (m : AnswerMap) : Prop :=
  ∀ p ∈ m, (Prod.snd p).field_id = Prod.fst p

/-- A heuristic answer used by the tie-break witness. -/
def heurTie : AiFieldAnswer :=
  { field_id := "f1".toList, value := .str yesS, confidence := 0.82,
    reason := reasonSponsorS, source := profileSourceS }

/-- An LLM answer for the same field with equal confidence. -/
def llmTie : AiFieldAnswer :=
  { field_id := "f1".toList, value := .str noS, confidence := 0.82 }

/-- The heuristic map seeded with the tie-break heuristic answer. -/
def tieMap : AnswerMap := dictOfAnswers [heurTie]

/-- A sponsorship field offering Yes/No options. -/
def sponsorField : AiFieldQuestion :=
  { field_id := "f1".toList,
    label := "Will you require visa sponsorship?".toList,
    field_type := "select".toList,
    options := [yesS, noS] }

/-- A request containing only the sponsorship field. -/
def sponsorRequest : AiAnswerRequest :=
  { site := [], job_url := [], fields := [sponsorField] }

/-- An LLM answer whose field id appears in no request. -/
def ghostAnswer : AiFieldAnswer := { field_id := "ghost".toList }

/-- A world whose reply answers a field the request never asked about. -/
def ghostWorld : LLMWorld := .ok [.valid ghostAnswer]

/-- A world whose reply contains no answers. -/
def emptyOkWorld : LLMWorld := .ok []

/-- The heuristic answer the sponsorship request produces. -/
def heurSponsorAnswer : AiFieldAnswer :=
  { field_id := "f1".toList, value := .str yesS, confidence := clamp_confidence 0.82,
    reason := reasonSponsorS, source := profileSourceS }

/-! ## C7: option selection order and fallback -/
/-- The claim's description of option selection, written per its words:
iterate the preferred terms in the outer loop; for each, return the first
option in given order that is non-blank and whose normalized text
contains the nonempty normalized term as a substring. -/
def pickSpec (options : List Str) (terms : List Str) : Option Str :=
  terms.findSome? (fun term =>
    options.find? (fun o =>
      !(stripChars o).isEmpty &&
        (!(normalize_text term).isEmpty &&
          containsSub (normalize_text term) (normalize_text o))))

/-- A sponsorship field whose only option matches neither Yes nor No. -/
def noMatchSponsorField : AiFieldQuestion :=
  { field_id := "f9".toList,
    label := "Do you need sponsorship?".toList,
    field_type := "select".toList,
    options := ["Maybe".toList] }

/-- Literal `"Maybe"`. -/
def maybeS : Str := "Maybe".toList

/-- Literal `"Yes definitely"`. -/
def yesDefinitelyS : Str := "Yes definitely".toList

/-- A work-authorization field with two options. -/
def authField : AiFieldQuestion :=
  { field_id := "f3".toList,
    label := "Are you authorized to work in the US?".toList,
    field_type := "select".toList,
    options := [maybeS, yesDefinitelyS] }

/-! ## C9: idempotence of the text normalizer -/
/-- Adjacent characters are not both whitespace. -/
def SpacedOK (a b : Char) : Prop :=
  ¬(isSpaceChar a = true ∧ isSpaceChar b = true)

/-- The normal form `normalize_text` produces: lowercase alphanumerics
and single spaces, with no whitespace at either end. -/
def NormalizedForm (l : Str) : Prop :=
  (∀ c ∈ l, isLowerAlnum c = true ∨ c = ' ') ∧
  l.Chain' SpacedOK ∧
  (∀ c, l.head? = some c → isSpaceChar c = false) ∧
  (∀ c, l.getLast? = some c → isSpaceChar c = false)

/-! ## Basic facts about clamping -/
/-- Clamped confidences are nonnegative. -/
theorem clamp_confidence_nonneg (x : ℚ) : 0 ≤ clamp_confidence x :=
  le_max_left 0 _

/-- Clamped confidences are at most one. -/
theorem clamp_confidence_le_one (x : ℚ) : clamp_confidence x ≤ 1 :=
  max_le (by norm_num) (min_le_left 1 x)

/-! ## C8: payload truncation -/
/-- C8: for every request sent to the external chat-completion API, the
`job_description` in the request payload is the first 12000 characters of
the request's `job_description`; whenever the input is longer than 12000
characters, the payload's description length is exactly 12000. -/
theorem payload_description_truncated (request : AiAnswerRequest) (profile : Profile) :
    (build_user_payload request profile).job.job_description
        = request.job_description.take 12000 ∧
    (12000 < request.job_description.length →
      (build_user_payload request profile).job.job_description.length = 12000) := by
  refine ⟨rfl, fun h => ?_⟩
  simp only [build_user_payload, List.length_take]
  omega

/-- Witness for C8 at a 12001-character description. -/
theorem payload_description_truncated_witness :
    12000 < longRequest.job_description.length ∧
    (build_user_payload longRequest sampleProfile).job.job_description.length = 12000 :=
  ⟨by rw [show longRequest.job_description = List.replicate 12001 'a' from rfl,
        List.length_replicate]
      omega,
   (payload_description_truncated longRequest sampleProfile).2
     (by rw [show longRequest.job_description = List.replicate 12001 'a' from rfl,
           List.length_replicate]
         omega)⟩

/-! ## C6: confidence clamping of surviving LLM items -/
/-- With a blank API key the client short-circuits to `([], "")`. -/
theorem call_openai_no_key (env : Env) (world : LLMWorld) (request : AiAnswerRequest)
    (profile : Profile) (hk : stripChars env.OPENAI_API_KEY = []) :
    call_openai_for_field_answers env world request profile = .ok ([], []) := by
  unfold call_openai_for_field_answers
  simp [hk]

/-- C6: every `AiFieldAnswer` that survives per-item validation of the LLM
reply has its confidence clamped into `[0, 1]` before being returned,
regardless of the confidence the external reply reported. -/
theorem llm_answers_confidence_clamped (env : Env) (world : LLMWorld)
    (request : AiAnswerRequest) (profile : Profile)
    (out : List AiFieldAnswer) (model_name : Str)
    (h : call_openai_for_field_answers env world request profile = .ok (out, model_name)) :
    ∀ a ∈ out, 0 ≤ a.confidence ∧ a.confidence ≤ 1 := by
  intro a ha
  by_cases hk : stripChars env.OPENAI_API_KEY = []
  · rw [call_openai_no_key env world request profile hk] at h
    simp only [Except.ok.injEq, Prod.mk.injEq] at h
    obtain ⟨h1, _⟩ := h
    subst h1
    simp at ha
  · unfold call_openai_for_field_answers at h
    cases world with
    | httpError code body => simp [hk] at h
    | requestFailed msg => simp [hk] at h
    | parseFailure msg => simp [hk] at h
    | ok items =>
      simp only [hk, if_false, Bool.false_eq_true, ite_false, Except.ok.injEq,
        Prod.mk.injEq] at h
      obtain ⟨h1, _⟩ := h
      subst h1
      rcases List.mem_filterMap.mp ha with ⟨item, _, hv⟩
      cases item with
      | valid b =>
        simp only [validateAnswerItem, Option.some.injEq] at hv
        subst hv
        exact ⟨clamp_confidence_nonneg _, clamp_confidence_le_one _⟩
      | invalid => simp [validateAnswerItem] at hv

/-- Witness for C6: the out-of-range confidences 1.5 and -0.3 survive
validation clamped to 1 and 0. -/
theorem llm_answers_confidence_clamped_witness :
    ∃ out, call_openai_for_field_answers keyEnv clampWorld emptyRequest sampleProfile
        = .ok (out, defaultModelS)
      ∧ (∀ a ∈ out, 0 ≤ a.confidence ∧ a.confidence ≤ 1)
      ∧ out.map AiFieldAnswer.confidence = [1, 0] :=
  ⟨_, rfl, llm_answers_confidence_clamped keyEnv clampWorld emptyRequest sampleProfile _ _ rfl,
   by norm_num [validateAnswerItem, overItem, underItem, clamp_confidence,
     List.filterMap_cons, List.filterMap_nil]⟩

/-! ## C4: the designed no-op path when no credential is configured -/
/-- C4: when no API credential is configured, the LLM client returns an
empty answer list and empty model name for every profile and every world
(no network call), and the response's `used_llm` is false with `message`
equal to the fixed heuristic-only notice, for every request. -/
theorem no_key_heuristic_only (env : Env) (world : LLMWorld) (profile_store : Profile)
    (request : AiAnswerRequest) (hk : stripChars env.OPENAI_API_KEY = []) :
    (∀ profile, call_openai_for_field_answers env world request profile = .ok ([], [])) ∧
    (ai_answer_fields env world profile_store request).used_llm = false ∧
    (ai_answer_fields env world profile_store request).message = noKeyNoticeS := by
  have hcall : ∀ profile,
      call_openai_for_field_answers env world request profile = .ok ([], []) :=
    fun profile => call_openai_no_key env world request profile hk
  refine ⟨hcall, ?_, ?_⟩ <;>
  · simp only [ai_answer_fields, hcall]
    simp [hk]

/-- Witness for C4: blank (whitespace-only) key, failing transport world. -/
theorem no_key_heuristic_only_witness :
    call_openai_for_field_answers blankKeyEnv failWorld emptyRequest sampleProfile
        = .ok ([], []) ∧
    (ai_answer_fields blankKeyEnv failWorld sampleProfile emptyRequest).used_llm = false ∧
    (ai_answer_fields blankKeyEnv failWorld sampleProfile emptyRequest).message = noKeyNoticeS :=
  ⟨(no_key_heuristic_only blankKeyEnv failWorld sampleProfile emptyRequest (by decide)).1
      sampleProfile,
   (no_key_heuristic_only blankKeyEnv failWorld sampleProfile emptyRequest (by decide)).2.1,
   (no_key_heuristic_only blankKeyEnv failWorld sampleProfile emptyRequest (by decide)).2.2⟩

/-- Looking up the key just inserted yields the inserted value. -/
theorem lookupAns_insertAns_self (m : AnswerMap) (k : Str) (v : AiFieldAnswer) :
    lookupAns (insertAns m k v) k = some v := by
  induction m with
  | nil => simp [insertAns, lookupAns]
  | cons p rest ih =>
    obtain ⟨k', v'⟩ := p
    by_cases h : k' = k <;> simp [insertAns, lookupAns, h, ih]

/-- Inserting one key does not change lookups of other keys. -/
theorem lookupAns_insertAns_ne (m : AnswerMap) (k : Str) (v : AiFieldAnswer)
    (k' : Str) (h : k' ≠ k) :
    lookupAns (insertAns m k v) k' = lookupAns m k' := by
  have hne : ¬ k = k' := fun hh => h hh.symm
  induction m with
  | nil => simp [insertAns, lookupAns, hne]
  | cons p rest ih =>
    obtain ⟨k0, v0⟩ := p
    by_cases h0 : k0 = k
    · subst h0
      simp [insertAns, lookupAns, hne]
    · by_cases h1 : k0 = k'
      · subst h1
        simp [insertAns, lookupAns, h0]
      · simp [insertAns, lookupAns, h0, h1, ih]

/-- A key of `insertAns m k v` is a key of `m` or is `k`. -/
theorem mem_ansKeys_insertAns {m : AnswerMap} {k : Str} {v : AiFieldAnswer} {k' : Str} :
    k' ∈ ansKeys (insertAns m k v) → k' ∈ ansKeys m ∨ k' = k := by
  induction m with
  | nil =>
    intro h
    refine Or.inr ?_
    simp only [insertAns, ansKeys, List.map_cons, List.map_nil, List.mem_cons,
      List.not_mem_nil, or_false] at h
    exact h
  | cons p rest ih =>
    intro h
    obtain ⟨k0, v0⟩ := p
    by_cases h0 : k0 = k
    · subst h0
      rw [show insertAns ((k0, v0) :: rest) k0 v = (k0, v) :: rest by
        simp [insertAns]] at h
      simp only [ansKeys, List.map_cons, List.mem_cons] at h ⊢
      tauto
    · rw [show insertAns ((k0, v0) :: rest) k v = (k0, v0) :: insertAns rest k v by
        simp [insertAns, h0]] at h
      simp only [ansKeys, List.map_cons, List.mem_cons] at h ⊢
      rcases h with h | h
      · exact Or.inl (Or.inl h)
      · rcases ih h with h' | h'
        · exact Or.inl (Or.inr h')
        · exact Or.inr h'

/-- Insertion respecting the key discipline preserves well-formedness. -/
theorem answerMapWF_insertAns {m : AnswerMap} (hm : AnswerMapWF m)
    {k : Str} {v : AiFieldAnswer} (hv : v.field_id = k) :
    AnswerMapWF (insertAns m k v) := by
  induction m with
  | nil =>
    intro p hp
    simp only [insertAns, List.mem_singleton] at hp
    subst hp
    exact hv
  | cons q rest ih =>
    obtain ⟨k0, v0⟩ := q
    have hm0 : v0.field_id = k0 := hm (k0, v0) (List.mem_cons_self _ _)
    have hmrest : AnswerMapWF rest := fun p hp => hm p (List.mem_cons_of_mem _ hp)
    intro p hp
    by_cases h0 : k0 = k
    · subst h0
      rw [show insertAns ((k0, v0) :: rest) k0 v = (k0, v) :: rest by
        simp [insertAns]] at hp
      rcases List.mem_cons.mp hp with hh | hh
      · subst hh
        exact hv
      · exact hm p (List.mem_cons_of_mem _ hh)
    · rw [show insertAns ((k0, v0) :: rest) k v = (k0, v0) :: insertAns rest k v by
        simp [insertAns, h0]] at hp
      rcases List.mem_cons.mp hp with hh | hh
      · subst hh
        exact hm0
      · exact ih hmrest p hh

/-! ## C3: the merge step -/
/-- C3: the merge is the deterministic function `mergeAnswers` (a left
fold of `mergeStep` over the LLM answers, starting from the heuristic
answers keyed by field id).  Each step overwrites the entry at the
answer's field id exactly when no entry exists or the LLM answer's
confidence is greater than or equal to the existing entry's; on equal
confidence the LLM answer wins; entries at other keys are untouched. -/
theorem merge_step_characterization (m : AnswerMap) (answer : AiFieldAnswer) :
    (lookupAns m answer.field_id = none →
        lookupAns (mergeStep m answer) answer.field_id = some answer) ∧
    (∀ existing, lookupAns m answer.field_id = some existing →
        (existing.confidence ≤ answer.confidence →
          lookupAns (mergeStep m answer) answer.field_id = some answer) ∧
        (answer.confidence < existing.confidence → mergeStep m answer = m)) ∧
    (∀ existing, lookupAns m answer.field_id = some existing →
        existing.confidence = answer.confidence →
        lookupAns (mergeStep m answer) answer.field_id = some answer) ∧
    (∀ k, k ≠ answer.field_id → lookupAns (mergeStep m answer) k = lookupAns m k) := by
  refine ⟨?_, ?_, ?_, ?_⟩
  · intro h
    unfold mergeStep
    rw [h]
    exact lookupAns_insertAns_self m answer.field_id answer
  · intro existing he
    constructor
    · intro hle
      unfold mergeStep
      rw [he]
      dsimp only
      rw [if_pos hle]
      exact lookupAns_insertAns_self m answer.field_id answer
    · intro hlt
      unfold mergeStep
      rw [he]
      dsimp only
      rw [if_neg (not_le.mpr hlt)]
  · intro existing he heq
    unfold mergeStep
    rw [he]
    dsimp only
    rw [if_pos (le_of_eq heq)]
    exact lookupAns_insertAns_self m answer.field_id answer
  · intro k hk
    unfold mergeStep
    cases hl : lookupAns m answer.field_id with
    | none => exact lookupAns_insertAns_ne m answer.field_id answer k hk
    | some existing =>
      dsimp only
      by_cases hle : existing.confidence ≤ answer.confidence
      · rw [if_pos hle]
        exact lookupAns_insertAns_ne m answer.field_id answer k hk
      · rw [if_neg hle]

/-- Witness for C3: on equal confidence for the same field id the LLM
answer overwrites the heuristic one. -/
theorem merge_step_characterization_witness :
    lookupAns tieMap llmTie.field_id = some heurTie ∧
    heurTie.confidence = llmTie.confidence ∧
    lookupAns (mergeStep tieMap llmTie) llmTie.field_id = some llmTie :=
  ⟨rfl, rfl, (merge_step_characterization tieMap llmTie).2.2.1 heurTie rfl rfl⟩

/-! ## C5: degradation to heuristic answers on LLM failure -/
/-- The per-field function determines the answer's field id. -/
theorem heuristic_field_id {profile : Profile} {field : AiFieldQuestion}
    {a : AiFieldAnswer} (h : heuristic_field profile field = some a) :
    a.field_id = field.field_id := by
  unfold heuristic_field at h
  rcases Option.map_eq_some'.mp h with ⟨vcr, _, rfl⟩
  rfl

/-- Field ids of heuristic answers form a sublist of the request's field
ids (one answer per matched field, in field order). -/
theorem ansIds_build_heuristic_sublist (profile : Profile) (fields : List AiFieldQuestion) :
    List.Sublist (ansIds (build_heuristic_answers profile fields)) (fieldIds fields) := by
  induction fields with
  | nil => simp [build_heuristic_answers, ansIds, fieldIds]
  | cons f rest ih =>
    unfold build_heuristic_answers at ih ⊢
    cases hf : heuristic_field profile f with
    | none =>
      rw [List.filterMap_cons_none hf]
      exact ih.cons f.field_id
    | some a =>
      rw [List.filterMap_cons_some hf]
      have : a.field_id = f.field_id := heuristic_field_id hf
      simpa [ansIds, fieldIds, this] using ih.cons₂ f.field_id

/-- Inserting a fresh key appends the binding. -/
theorem insertAns_not_mem (m : AnswerMap) (k : Str) (v : AiFieldAnswer)
    (h : k ∉ ansKeys m) : insertAns m k v = m ++ [(k, v)] := by
  induction m with
  | nil => rfl
  | cons p rest ih =>
    obtain ⟨k0, v0⟩ := p
    simp only [ansKeys, List.map_cons, List.mem_cons, not_or] at h
    obtain ⟨h1, h2⟩ := h
    simp only [insertAns, if_neg (fun hh : k0 = k => h1 hh.symm), List.cons_append,
      List.cons.injEq, true_and]
    exact ih h2

/-- Folding insertions of answers with globally distinct keys appends the
bindings in order. -/
theorem foldl_insertAns_nodup :
    ∀ (answers : List AiFieldAnswer) (m : AnswerMap),
      (ansKeys m ++ ansIds answers).Nodup →
      answers.foldl (fun acc a => insertAns acc a.field_id a) m
        = m ++ answers.map (fun a => (a.field_id, a)) := by
  intro answers
  induction answers with
  | nil => intro m _; simp
  | cons a rest ih =>
    intro m h
    have hdisj := List.nodup_append.mp h
    have hmem : a.field_id ∉ ansKeys m := fun hmem =>
      hdisj.2.2 hmem (List.mem_cons_self _ _)
    rw [List.foldl_cons, insertAns_not_mem m a.field_id a hmem]
    have hkeys : ansKeys (m ++ [(a.field_id, a)]) = ansKeys m ++ [a.field_id] := by
      simp [ansKeys]
    have hnodup2 : (ansKeys (m ++ [(a.field_id, a)]) ++ ansIds rest).Nodup := by
      rw [hkeys, List.append_assoc, List.singleton_append]
      simpa [ansIds] using h
    rw [ih (m ++ [(a.field_id, a)]) hnodup2, List.append_assoc, List.singleton_append]
    rfl

/-- With distinct field ids, the dict comprehension preserves the answers
and their order. -/
theorem values_dictOfAnswers (answers : List AiFieldAnswer)
    (h : (ansIds answers).Nodup) :
    (dictOfAnswers answers).map Prod.snd = answers := by
  unfold dictOfAnswers
  rw [foldl_insertAns_nodup answers [] (by simpa [ansKeys] using h)]
  simp only [List.nil_append, List.map_map]
  exact List.map_id answers

/-- C5: if the LLM client raises, the endpoint still returns a response
whose `message` is the failure's message verbatim and whose answers are
exactly all the heuristic answers (assuming the request's field ids are
distinct, as the data model requires); there is no hard-error path. -/
theorem llm_failure_degrades_to_heuristics (env : Env) (world : LLMWorld)
    (profile_store : Profile) (request : AiAnswerRequest) (msg : Str)
    (hfail : call_openai_for_field_answers env world request
        (effectiveProfile profile_store request) = .error msg)
    (hnodup : (fieldIds request.fields).Nodup) :
    (ai_answer_fields env world profile_store request).message = msg ∧
    (ai_answer_fields env world profile_store request).answers
        = build_heuristic_answers (effectiveProfile profile_store request) request.fields := by
  have hk : ¬ stripChars env.OPENAI_API_KEY = [] := by
    intro hk
    rw [call_openai_no_key env world request _ hk] at hfail
    exact Except.noConfusion hfail
  have hids : (ansIds (build_heuristic_answers (effectiveProfile profile_store request)
      request.fields)).Nodup :=
    (ansIds_build_heuristic_sublist _ _).nodup hnodup
  constructor
  · simp only [ai_answer_fields, hfail]
    simp [hk]
  · simp only [ai_answer_fields, hfail]
    simpa using values_dictOfAnswers _ hids

/-- Witness for C5: a failing transport surfaces its message verbatim and
keeps the heuristic answer for the sponsorship field. -/
theorem llm_failure_degrades_to_heuristics_witness :
    (ai_answer_fields keyEnv failWorld sampleProfile sponsorRequest).message
        = requestFailedMsg boomS ∧
    (ai_answer_fields keyEnv failWorld sampleProfile sponsorRequest).answers
        = build_heuristic_answers sampleProfile sponsorRequest.fields :=
  ⟨(llm_failure_degrades_to_heuristics keyEnv failWorld sampleProfile sponsorRequest
      (requestFailedMsg boomS) rfl (by decide)).1,
   (llm_failure_degrades_to_heuristics keyEnv failWorld sampleProfile sponsorRequest
      (requestFailedMsg boomS) rfl (by decide)).2⟩

/-! ## C1: field ids of the response -/
/-- A key of `mergeStep m a` is a key of `m` or is `a`'s field id. -/
theorem mem_ansKeys_mergeStep {m : AnswerMap} {answer : AiFieldAnswer} {k : Str}
    (h : k ∈ ansKeys (mergeStep m answer)) : k ∈ ansKeys m ∨ k = answer.field_id := by
  unfold mergeStep at h
  cases hl : lookupAns m answer.field_id with
  | none =>
    rw [hl] at h
    exact mem_ansKeys_insertAns h
  | some existing =>
    rw [hl] at h
    dsimp only at h
    by_cases hle : existing.confidence ≤ answer.confidence
    · rw [if_pos hle] at h
      exact mem_ansKeys_insertAns h
    · rw [if_neg hle] at h
      exact Or.inl h

/-- A key of the merged map is a heuristic key or an LLM answer's id. -/
theorem mem_ansKeys_mergeAnswers :
    ∀ (llm_answers : List AiFieldAnswer) (m : AnswerMap) (k : Str),
      k ∈ ansKeys (mergeAnswers m llm_answers) →
      k ∈ ansKeys m ∨ k ∈ ansIds llm_answers := by
  intro llm_answers
  induction llm_answers with
  | nil => intro m k h; exact Or.inl h
  | cons a rest ih =>
    intro m k h
    rcases ih (mergeStep m a) k h with h' | h'
    · rcases mem_ansKeys_mergeStep h' with h'' | h''
      · exact Or.inl h''
      · exact Or.inr (by simp [ansIds, h''])
    · exact Or.inr (List.mem_cons_of_mem _ h')

/-- A key of the heuristic dict is one of the heuristic answers' ids. -/
theorem mem_ansKeys_dictOfAnswers {answers : List AiFieldAnswer} {k : Str}
    (h : k ∈ ansKeys (dictOfAnswers answers)) : k ∈ ansIds answers := by
  suffices haux : ∀ (answers : List AiFieldAnswer) (m : AnswerMap) (k : Str),
      k ∈ ansKeys (answers.foldl (fun acc a => insertAns acc a.field_id a) m) →
      k ∈ ansKeys m ∨ k ∈ ansIds answers by
    rcases haux answers [] k h with h' | h'
    · simp [ansKeys] at h'
    · exact h'
  intro answers
  induction answers with
  | nil => intro m k h; exact Or.inl h
  | cons a rest ih =>
    intro m k h
    rcases ih (insertAns m a.field_id a) k h with h' | h'
    · rcases mem_ansKeys_insertAns h' with h'' | h''
      · exact Or.inl h''
      · exact Or.inr (by simp [ansIds, h''])
    · exact Or.inr (List.mem_cons_of_mem _ h')

/-- Merge steps preserve well-formedness. -/
theorem answerMapWF_mergeStep {m : AnswerMap} (hm : AnswerMapWF m)
    (answer : AiFieldAnswer) : AnswerMapWF (mergeStep m answer) := by
  unfold mergeStep
  cases lookupAns m answer.field_id with
  | none => exact answerMapWF_insertAns hm rfl
  | some existing =>
    dsimp only
    by_cases hle : existing.confidence ≤ answer.confidence
    · rw [if_pos hle]
      exact answerMapWF_insertAns hm rfl
    · rw [if_neg hle]
      exact hm

/-- The merge preserves well-formedness. -/
theorem answerMapWF_mergeAnswers :
    ∀ (llm_answers : List AiFieldAnswer) (m : AnswerMap), AnswerMapWF m →
      AnswerMapWF (mergeAnswers m llm_answers) := by
  intro llm_answers
  induction llm_answers with
  | nil => intro m hm; exact hm
  | cons a rest ih => intro m hm; exact ih (mergeStep m a) (answerMapWF_mergeStep hm a)

/-- The heuristic dict is well-formed. -/
theorem answerMapWF_dictOfAnswers (answers : List AiFieldAnswer) :
    AnswerMapWF (dictOfAnswers answers) := by
  suffices haux : ∀ (answers : List AiFieldAnswer) (m : AnswerMap), AnswerMapWF m →
      AnswerMapWF (answers.foldl (fun acc a => insertAns acc a.field_id a) m) from
    haux answers [] (fun p hp => absurd hp (List.not_mem_nil p))
  intro answers
  induction answers with
  | nil => intro m hm; exact hm
  | cons a rest ih => intro m hm; exact ih _ (answerMapWF_insertAns hm rfl)

/-- In a well-formed map, each stored answer's field id is a key. -/
theorem field_id_mem_ansKeys_of_mem_values {m : AnswerMap} (hwf : AnswerMapWF m)
    {a : AiFieldAnswer} (ha : a ∈ m.map Prod.snd) : a.field_id ∈ ansKeys m := by
  rcases List.mem_map.mp ha with ⟨p, hp, rfl⟩
  rw [hwf p hp]
  exact List.mem_map_of_mem Prod.fst hp

/-- C1 (amended): whenever every answer returned by the LLM client carries
a field id present in the request's field list — in particular whenever
the LLM path is skipped, fails, or returns nothing — every `AiFieldAnswer`
in the response has a field id present in the request's field list.  The
heuristic side needs no hypothesis.  (The unconditional claim is refuted
by `response_field_ids_cex`: the merge inserts LLM answers under their
reported field ids without checking them against the request.) -/
theorem response_field_ids_with_valid_llm (env : Env) (world : LLMWorld)
    (profile_store : Profile) (request : AiAnswerRequest)
    (hllm : ∀ out model_name,
        call_openai_for_field_answers env world request
            (effectiveProfile profile_store request) = .ok (out, model_name) →
        ∀ a ∈ out, a.field_id ∈ fieldIds request.fields) :
    ∀ a ∈ (ai_answer_fields env world profile_store request).answers,
      a.field_id ∈ fieldIds request.fields := by
  intro a ha
  have hheur : ∀ k, k ∈ ansIds (build_heuristic_answers
      (effectiveProfile profile_store request) request.fields) →
      k ∈ fieldIds request.fields :=
    fun k hk => (ansIds_build_heuristic_sublist _ _).subset hk
  cases hcall : call_openai_for_field_answers env world request
      (effectiveProfile profile_store request) with
  | error msg =>
    simp only [ai_answer_fields, hcall] at ha
    exact hheur _ (mem_ansKeys_dictOfAnswers
      (field_id_mem_ansKeys_of_mem_values (answerMapWF_dictOfAnswers _) ha))
  | ok p =>
    obtain ⟨out, model_name⟩ := p
    simp only [ai_answer_fields, hcall] at ha
    have hwf : AnswerMapWF (mergeAnswers (dictOfAnswers (build_heuristic_answers
        (effectiveProfile profile_store request) request.fields)) out) :=
      answerMapWF_mergeAnswers out _ (answerMapWF_dictOfAnswers _)
    have hkey : a.field_id ∈ ansKeys (mergeAnswers (dictOfAnswers
        (build_heuristic_answers (effectiveProfile profile_store request) request.fields))
        out) :=
      field_id_mem_ansKeys_of_mem_values hwf ha
    rcases mem_ansKeys_mergeAnswers out _ _ hkey with hk | hk
    · exact hheur _ (mem_ansKeys_dictOfAnswers hk)
    · rcases List.mem_map.mp hk with ⟨b, hb, hba⟩
      rw [← hba]
      exact hllm out model_name hcall b hb

/-- Counterexample to C1 as stated: with an API key configured and a reply
answering an unseen field id, the response contains an answer whose field
id is absent from the (empty) request field list. -/
theorem response_field_ids_cex :
    ∃ a ∈ (ai_answer_fields keyEnv ghostWorld sampleProfile emptyRequest).answers,
      a.field_id ∉ fieldIds emptyRequest.fields := by
  decide

/-- Witness for the amended C1: with an empty (hence trivially valid) LLM
reply, the response's single answer is the heuristic sponsorship answer,
whose field id is the request's field id. -/
theorem response_field_ids_with_valid_llm_witness :
    heurSponsorAnswer ∈ (ai_answer_fields keyEnv emptyOkWorld sampleProfile
        sponsorRequest).answers ∧
    heurSponsorAnswer.field_id ∈ fieldIds sponsorRequest.fields := by
  have hmem : heurSponsorAnswer ∈ (ai_answer_fields keyEnv emptyOkWorld sampleProfile
      sponsorRequest).answers := by
    rw [show (ai_answer_fields keyEnv emptyOkWorld sampleProfile sponsorRequest).answers
        = [heurSponsorAnswer] from rfl]
    exact List.mem_singleton_self _
  refine ⟨hmem, ?_⟩
  refine response_field_ids_with_valid_llm keyEnv emptyOkWorld sampleProfile sponsorRequest
    ?_ heurSponsorAnswer hmem
  intro out model_name h a ha
  rw [show call_openai_for_field_answers keyEnv emptyOkWorld sponsorRequest
      (effectiveProfile sampleProfile sponsorRequest) = .ok ([], defaultModelS) from rfl] at h
  simp only [Except.ok.injEq, Prod.mk.injEq] at h
  obtain ⟨h1, _⟩ := h
  subst h1
  simp at ha

/-- The inner search over precomputed pairs agrees with a search over the
raw options with the combined predicate. -/
theorem find?_normalized_options (options : List Str) (nt : Str) :
    (((options.filter (fun o => !(stripChars o).isEmpty)).map
        (fun o => (o, normalize_text o))).find?
          (fun po => !nt.isEmpty && containsSub nt po.2)).map Prod.fst
      = options.find? (fun o =>
          !(stripChars o).isEmpty && (!nt.isEmpty && containsSub nt (normalize_text o))) := by
  induction options with
  | nil => rfl
  | cons o rest ih =>
    simp only [List.filter_cons]
    by_cases hs : (!(stripChars o).isEmpty) = true
    · rw [if_pos hs]
      simp only [List.map_cons, List.find?_cons]
      by_cases hm : (!nt.isEmpty && containsSub nt (normalize_text o)) = true
      · simp [hm, hs]
      · simp only [Bool.not_eq_true] at hm
        simp only [hm, hs]
        simp only [Bool.and_eq_true] at hs
        simp [hm, hs]
        simpa using ih
    · simp only [Bool.not_eq_true, Bool.not_eq_false] at hs
      rw [if_neg (by simp [hs])]
      have hpred : (!(stripChars o).isEmpty &&
          (!nt.isEmpty && containsSub nt (normalize_text o))) = false := by
        simp [hs]
      rw [List.find?_cons, hpred]
      simpa using ih

/-- `pickFrom` over the precomputed pairs equals the specification's
nested search. -/
theorem pickFrom_eq_pickSpec (options : List Str) :
    ∀ terms, pickFrom ((options.filter (fun o => !(stripChars o).isEmpty)).map
        (fun o => (o, normalize_text o))) terms = pickSpec options terms := by
  intro terms
  induction terms with
  | nil => rfl
  | cons t rest ih =>
    unfold pickFrom pickSpec
    rw [List.findSome?_cons]
    cases hfind : (((options.filter (fun o => !(stripChars o).isEmpty)).map
        (fun o => (o, normalize_text o))).find?
          (fun po => !(normalize_text t).isEmpty &&
            containsSub (normalize_text t) po.2)) with
    | some po =>
      have := find?_normalized_options options (normalize_text t)
      rw [hfind] at this
      rw [← this]
      rfl
    | none =>
      have := find?_normalized_options options (normalize_text t)
      rw [hfind] at this
      rw [← this]
      exact ih

/-- C7: heuristic option selection iterates the preferred terms in the
outer loop and the options in their given order in the inner loop,
returning the first non-blank option whose normalized text contains the
nonempty normalized term as a substring (`pick_best_option` refines
`pickSpec`, the claim's description); and when no option matches, the
sponsorship intent's answer value falls back to the raw preferred value. -/
theorem pick_best_option_refines_pickSpec :
    (∀ options terms, pick_best_option options terms = pickSpec options terms) ∧
    (∀ (profile : Profile) (field : AiFieldQuestion),
      containsSub sponsorS (normalize_text field.label) = true →
      pick_best_option field.options
          [if profile.work_auth.need_sponsorship then yesS else noS] = none →
      heuristic_field profile field = some
        { field_id := field.field_id,
          value := .str (if profile.work_auth.need_sponsorship then yesS else noS),
          confidence := clamp_confidence 0.82,
          reason := reasonSponsorS,
          source := profileSourceS }) := by
  constructor
  · intro options terms
    exact pickFrom_eq_pickSpec options terms
  · intro profile field hlabel hnone
    unfold heuristic_field heuristic_vcr
    rw [if_pos hlabel]
    simp only [hnone, pyOrStr, Option.map_some']

/-- Witness for C7: the selection equality at concrete inputs, and the
fallback to the raw preferred value when no option matches. -/
theorem pick_best_option_refines_pickSpec_witness :
    pick_best_option noMatchSponsorField.options [yesS]
        = pickSpec noMatchSponsorField.options [yesS] ∧
    containsSub sponsorS (normalize_text noMatchSponsorField.label) = true ∧
    pick_best_option noMatchSponsorField.options [yesS] = none ∧
    heuristic_field sampleProfile noMatchSponsorField = some
      { field_id := "f9".toList, value := .str yesS,
        confidence := clamp_confidence 0.82, reason := reasonSponsorS,
        source := profileSourceS } :=
  ⟨pick_best_option_refines_pickSpec.1 noMatchSponsorField.options [yesS],
   by decide,
   by decide,
   pick_best_option_refines_pickSpec.2 sampleProfile noMatchSponsorField
     (by decide) (by decide)⟩

/-! ## C10: blank options and empty preferred terms -/
/-- Normalizing the empty string yields the empty string. -/
theorem normalize_text_nil : normalize_text [] = [] := rfl

/-- Whatever `pickFrom` returns is the first component of a pair of its
option list. -/
theorem pickFrom_mem {nopts : List (Str × Str)} :
    ∀ {terms : List Str} {x : Str}, pickFrom nopts terms = some x →
      ∃ n, (x, n) ∈ nopts := by
  intro terms
  induction terms with
  | nil => intro x h; exact absurd h (by simp [pickFrom])
  | cons t rest ih =>
    intro x h
    unfold pickFrom at h
    cases hf : nopts.find? (fun po =>
        !(normalize_text t).isEmpty && containsSub (normalize_text t) po.2) with
    | some po =>
      rw [hf] at h
      dsimp only at h
      obtain rfl : po.1 = x := Option.some.inj h
      exact ⟨po.2, by simpa using List.mem_of_find?_eq_some hf⟩
    | none =>
      rw [hf] at h
      dsimp only at h
      exact ih h

/-- A selected option is never blank after stripping. -/
theorem pick_best_option_nonblank {options terms : List Str} {o : Str}
    (h : pick_best_option options terms = some o) :
    (stripChars o).isEmpty = false := by
  unfold pick_best_option at h
  rcases pickFrom_mem h with ⟨n, hn⟩
  rcases List.mem_map.mp hn with ⟨o', ho', heq⟩
  obtain ⟨rfl, -⟩ : o' = o ∧ normalize_text o' = n := by
    exact ⟨congrArg Prod.fst heq, congrArg Prod.snd heq⟩
  have := List.of_mem_filter ho'
  simpa using this

/-- A preferred term with empty normalization matches no option at all:
the scan proceeds with the remaining terms. -/
theorem pick_best_option_skip_empty_term (options : List Str) (t : Str)
    (rest : List Str) (h : normalize_text t = []) :
    pick_best_option options (t :: rest) = pick_best_option options rest := by
  unfold pick_best_option
  conv_lhs => rw [pickFrom]
  rw [List.find?_eq_none.mpr (fun po _ => by simp [h])]

/-- The work-authorization intent with an empty profile authorization:
the empty term selects nothing, matching proceeds with the "Yes"
candidate, and the value falls back through `selected or "" or "Yes"`. -/
theorem auth_intent_empty_source (profile : Profile) (field : AiFieldQuestion)
    (hsp : containsSub sponsorS (normalize_text field.label) = false)
    (hau : (containsSub authorizedToWorkS (normalize_text field.label) ||
            containsSub workAuthorizationS (normalize_text field.label)) = true)
    (hempty : stripChars profile.work_auth.work_authorization = []) :
    heuristic_field profile field = some
      { field_id := field.field_id,
        value := .str (pyOrStr (pick_best_option field.options [yesS]) yesS),
        confidence := clamp_confidence 0.78,
        reason := reasonAuthS,
        source := profileSourceS } := by
  unfold heuristic_field heuristic_vcr
  rw [if_neg (by simp [hsp]), if_pos hau]
  simp only [hempty]
  rw [pick_best_option_skip_empty_term field.options [] [yesS] normalize_text_nil]
  simp [pyOrS]

/-- C10: heuristic option selection never returns a whitespace-only
option; a preferred term whose normalization is empty matches no option
(rather than trivially matching the first); consequently a
work-authorization field with empty profile authorization proceeds to the
"Yes" candidate or the raw fallback. -/
theorem pick_nonblank_empty_term_skipped :
    (∀ (options terms : List Str) (o : Str),
      pick_best_option options terms = some o → (stripChars o).isEmpty = false) ∧
    (∀ (options : List Str) (t : Str) (rest : List Str), normalize_text t = [] →
      pick_best_option options (t :: rest) = pick_best_option options rest) ∧
    (∀ (profile : Profile) (field : AiFieldQuestion),
      containsSub sponsorS (normalize_text field.label) = false →
      (containsSub authorizedToWorkS (normalize_text field.label) ||
        containsSub workAuthorizationS (normalize_text field.label)) = true →
      stripChars profile.work_auth.work_authorization = [] →
      heuristic_field profile field = some
        { field_id := field.field_id,
          value := .str (pyOrStr (pick_best_option field.options [yesS]) yesS),
          confidence := clamp_confidence 0.78,
          reason := reasonAuthS,
          source := profileSourceS }) :=
  ⟨fun _ _ _ h => pick_best_option_nonblank h,
   pick_best_option_skip_empty_term,
   auth_intent_empty_source⟩

/-- Witness for C10 at concrete inputs: the selected option is non-blank,
the empty term is skipped (it does not trivially match "Maybe"), and the
empty-authorization field gets the "Yes"-matched option. -/
theorem pick_nonblank_empty_term_skipped_witness :
    pick_best_option authField.options [yesS] = some yesDefinitelyS ∧
    (stripChars yesDefinitelyS).isEmpty = false ∧
    pick_best_option authField.options ([] :: [yesS])
        = pick_best_option authField.options [yesS] ∧
    heuristic_field sampleProfile authField = some
      { field_id := "f3".toList,
        value := .str (pyOrStr (pick_best_option authField.options [yesS]) yesS),
        confidence := clamp_confidence 0.78,
        reason := reasonAuthS,
        source := profileSourceS } :=
  ⟨by decide,
   pick_nonblank_empty_term_skipped.1 authField.options [yesS] yesDefinitelyS (by decide),
   pick_nonblank_empty_term_skipped.2.1 authField.options [] [yesS] (by decide),
   pick_nonblank_empty_term_skipped.2.2 sampleProfile authField
     (by decide) (by decide) (by decide)⟩

/-! ## C2: which fields the heuristic engine omits -/
/-- Counterexample to C2 as stated: `sampleProfile`'s work authorization
is the empty string after stripping, yet the engine emits an answer for
the work-authorization field instead of omitting it (the intent falls
back to "Yes"). -/
theorem heuristic_empty_source_not_omitted_cex :
    stripChars sampleProfile.work_auth.work_authorization = [] ∧
    ∃ a ∈ build_heuristic_answers sampleProfile [authField],
      a.field_id = authField.field_id := by
  decide

/-- C2 (amended): the engine is the total function
`fields.filterMap (heuristic_field profile)` (so it never raises and an
unmatched field is simply absent), and a field is omitted exactly when no
intent guard fires — where the linkedin/github/portfolio/location guards
additionally require a nonempty profile source.  Fields matching the
sponsorship or work-authorization intents are never omitted, even when
the profile source is the empty string. -/
theorem heuristic_omission_characterization :
    (∀ (profile : Profile) (fields : List AiFieldQuestion),
      build_heuristic_answers profile fields
        = fields.filterMap (heuristic_field profile)) ∧
    (∀ (profile : Profile) (field : AiFieldQuestion),
      heuristic_field profile field = none ↔
        (containsSub sponsorS (normalize_text field.label) = false ∧
         containsSub authorizedToWorkS (normalize_text field.label) = false ∧
         containsSub workAuthorizationS (normalize_text field.label) = false ∧
         (containsSub linkedinS (normalize_text field.label) = false ∨
           profile.links.linkedin = []) ∧
         (containsSub githubS (normalize_text field.label) = false ∨
           profile.links.github = []) ∧
         (containsSub portfolioS (normalize_text field.label) = false ∨
           profile.links.portfolio = []) ∧
         (containsSub locationS (normalize_text field.label) = false ∨
           profile.personal.location = []))) := by
  constructor
  · intro profile fields
    rfl
  · intro profile field
    unfold heuristic_field heuristic_vcr
    simp only [Option.map_eq_none']
    split_ifs with h1 h2 h3 h4 h5 h6 <;>
      simp_all [List.isEmpty_iff, Bool.or_eq_true, Bool.and_eq_true, Bool.not_eq_true,
        not_or, or_iff_not_imp_left, Bool.not_eq_false]

/-- A space is whitespace. -/
theorem isSpaceChar_space : isSpaceChar ' ' = true := by decide

/-- Lowercase alphanumerics are not whitespace. -/
theorem alnum_not_space {c : Char} (h : isLowerAlnum c = true) :
    isSpaceChar c = false := by
  simp only [isLowerAlnum, Bool.or_eq_true, Bool.and_eq_true, decide_eq_true_eq] at h
  simp only [isSpaceChar, Bool.or_eq_false_iff, Bool.and_eq_false_iff,
    decide_eq_false_iff_not]
  omega

/-- `str.lower` fixes lowercase alphanumerics and the space. -/
theorem lowerChar_fixed {c : Char} (h : isLowerAlnum c = true ∨ c = ' ') :
    lowerChar c = c := by
  unfold lowerChar
  rw [if_neg]
  rcases h with h | rfl
  · simp only [isLowerAlnum, Bool.or_eq_true, Bool.and_eq_true, decide_eq_true_eq] at h
    simp only [isUpperAlpha, Bool.and_eq_true, decide_eq_true_eq, not_and]
    omega
  · decide

/-- Sanitizing fixes lowercase alphanumerics and the space. -/
theorem sanitizeChar_fixed {c : Char} (h : isLowerAlnum c = true ∨ c = ' ') :
    sanitizeChar c = c := by
  unfold sanitizeChar
  rcases h with h | rfl
  · rw [if_pos (by simp [h])]
  · rw [if_pos (by decide)]

/-- After lowering and sanitizing, each character is a lowercase
alphanumeric or whitespace. -/
theorem sanitize_lower_char (c : Char) :
    isLowerAlnum (sanitizeChar (lowerChar c)) = true ∨
      isSpaceChar (sanitizeChar (lowerChar c)) = true := by
  unfold sanitizeChar
  by_cases h : (isLowerAlnum (lowerChar c) || isSpaceChar (lowerChar c)) = true
  · rw [if_pos h]
    simpa [Bool.or_eq_true] using h
  · rw [if_neg h]
    right
    decide

/-- Characters of the lower-sanitize stage are alphanumeric or space. -/
theorem smap_chars (l : Str) :
    ∀ c ∈ (l.map lowerChar).map sanitizeChar,
      isLowerAlnum c = true ∨ isSpaceChar c = true := by
  intro c hc
  rw [List.map_map] at hc
  rcases List.mem_map.mp hc with ⟨d, _, rfl⟩
  exact sanitize_lower_char d

/-- The lower-sanitize stage fixes strings of alphanumerics and spaces. -/
theorem smap_fixed (l : Str) (h : ∀ c ∈ l, isLowerAlnum c = true ∨ c = ' ') :
    (l.map lowerChar).map sanitizeChar = l := by
  induction l with
  | nil => rfl
  | cons c t ih =>
    have hc := h c (List.mem_cons_self _ _)
    simp only [List.map_cons, List.cons.injEq]
    constructor
    · rw [lowerChar_fixed hc, sanitizeChar_fixed hc]
    · exact ih (fun d hd => h d (List.mem_cons_of_mem _ hd))

/-- Whitespace collapsing yields a head determined by the first input
character. -/
theorem collapseWs_head :
    ∀ (rest : Str) (c : Char), ∃ t,
      collapseWs (c :: rest) = (if isSpaceChar c then ' ' else c) :: t := by
  intro rest
  induction rest with
  | nil => intro c; exact ⟨[], rfl⟩
  | cons c2 rest2 ih =>
    intro c
    by_cases h : (isSpaceChar c && isSpaceChar c2) = true
    · rw [show collapseWs (c :: c2 :: rest2) = collapseWs (c2 :: rest2) by
        simp only [collapseWs]; rw [if_pos h]]
      obtain ⟨h1, h2⟩ := Bool.and_eq_true_iff.mp h
      obtain ⟨t, ht⟩ := ih c2
      rw [ht, h1, h2]
      exact ⟨t, rfl⟩
    · exact ⟨collapseWs (c2 :: rest2), by simp only [collapseWs]; rw [if_neg h]⟩

/-- Every character the collapsing stage emits is a non-whitespace input
character or a space. -/
theorem collapseWs_chars :
    ∀ (l : Str), ∀ c ∈ collapseWs l, (c ∈ l ∧ isSpaceChar c = false) ∨ c = ' ' := by
  intro l
  induction l with
  | nil => intro c hc; simp [collapseWs] at hc
  | cons c1 t ih =>
    cases t with
    | nil =>
      intro c hc
      simp only [collapseWs, List.mem_singleton] at hc
      subst hc
      by_cases hs : isSpaceChar c1 = true
      · right; rw [if_pos hs]
      · left
        rw [if_neg hs]
        exact ⟨List.mem_cons_self _ _, by simpa using hs⟩
    | cons c2 rest =>
      intro c hc
      by_cases h : (isSpaceChar c1 && isSpaceChar c2) = true
      · rw [show collapseWs (c1 :: c2 :: rest) = collapseWs (c2 :: rest) by
          simp only [collapseWs]; rw [if_pos h]] at hc
        rcases ih c hc with ⟨hmem, hns⟩ | hsp
        · exact Or.inl ⟨List.mem_cons_of_mem _ hmem, hns⟩
        · exact Or.inr hsp
      · rw [show collapseWs (c1 :: c2 :: rest)
            = (if isSpaceChar c1 then ' ' else c1) :: collapseWs (c2 :: rest) by
          simp only [collapseWs]; rw [if_neg h]] at hc
        rcases List.mem_cons.mp hc with rfl | hc'
        · by_cases hs : isSpaceChar c1 = true
          · right; rw [if_pos hs]
          · left
            rw [if_neg hs]
            exact ⟨List.mem_cons_self _ _, by simpa using hs⟩
        · rcases ih c hc' with ⟨hmem, hns⟩ | hsp
          · exact Or.inl ⟨List.mem_cons_of_mem _ hmem, hns⟩
          · exact Or.inr hsp

/-- The collapsing stage never emits two adjacent whitespace characters. -/
theorem collapseWs_chain : ∀ (l : Str), (collapseWs l).Chain' SpacedOK := by
  intro l
  induction l with
  | nil => simp [collapseWs]
  | cons c1 t ih =>
    cases t with
    | nil => simp [collapseWs]
    | cons c2 rest =>
      by_cases h : (isSpaceChar c1 && isSpaceChar c2) = true
      · rw [show collapseWs (c1 :: c2 :: rest) = collapseWs (c2 :: rest) by
          simp only [collapseWs]; rw [if_pos h]]
        exact ih
      · rw [show collapseWs (c1 :: c2 :: rest)
            = (if isSpaceChar c1 then ' ' else c1) :: collapseWs (c2 :: rest) by
          simp only [collapseWs]; rw [if_neg h]]
        rw [List.chain'_cons']
        refine ⟨?_, ih⟩
        intro y hy
        obtain ⟨t2, ht2⟩ := collapseWs_head rest c2
        rw [ht2] at hy
        simp only [List.head?_cons, Option.mem_def, Option.some.injEq] at hy
        subst hy
        simp only [Bool.and_eq_true] at h
        by_cases hs1 : isSpaceChar c1 = true
        · have hs2 : isSpaceChar c2 = false := by
            cases hh : isSpaceChar c2
            · rfl
            · exact absurd ⟨hs1, hh⟩ h
          rw [if_pos hs1, if_neg (by simp [hs2])]
          exact fun ⟨_, hcon⟩ => by simp [hs2] at hcon
        · rw [if_neg hs1]
          exact fun ⟨hcon, _⟩ => hs1 hcon

/-- The collapsing stage fixes strings of alphanumerics and spaces with
no two adjacent spaces. -/
theorem collapseWs_fixed :
    ∀ (l : Str), (∀ c ∈ l, isLowerAlnum c = true ∨ c = ' ') →
      l.Chain' SpacedOK → collapseWs l = l := by
  intro l
  induction l with
  | nil => intro _ _; rfl
  | cons c1 t ih =>
    cases t with
    | nil =>
      intro hchars _
      simp only [collapseWs, List.cons.injEq, and_true]
      rcases hchars c1 (List.mem_cons_self _ _) with h | rfl
      · rw [if_neg (by simp [alnum_not_space h])]
      · rw [if_pos isSpaceChar_space]
    | cons c2 rest =>
      intro hchars hchain
      rw [List.chain'_cons] at hchain
      obtain ⟨hR, hcht⟩ := hchain
      have hcond : (isSpaceChar c1 && isSpaceChar c2) ≠ true := by
        simpa [SpacedOK, Bool.and_eq_true] using hR
      simp only [collapseWs]
      rw [if_neg hcond]
      have he : (if isSpaceChar c1 then ' ' else c1) = c1 := by
        rcases hchars c1 (List.mem_cons_self _ _) with h | rfl
        · rw [if_neg (by simp [alnum_not_space h])]
        · rw [if_pos isSpaceChar_space]
      rw [he, ih (fun d hd => hchars d (List.mem_cons_of_mem _ hd)) hcht]

/-- The head of `dropWhile isSpaceChar` is not whitespace. -/
theorem head?_dropWhile_space :
    ∀ (l : Str) (c : Char), (l.dropWhile isSpaceChar).head? = some c →
      isSpaceChar c = false := by
  intro l
  induction l with
  | nil => intro c h; simp at h
  | cons a t ih =>
    intro c h
    by_cases hs : isSpaceChar a = true
    · rw [List.dropWhile_cons_of_pos hs] at h
      exact ih c h
    · rw [List.dropWhile_cons_of_neg hs] at h
      simp only [List.head?_cons, Option.some.injEq] at h
      subst h
      simpa using hs

/-- Membership survives `dropWhile`. -/
theorem mem_of_mem_dropWhile {p : Char → Bool} :
    ∀ {l : Str} {c : Char}, c ∈ l.dropWhile p → c ∈ l := by
  intro l
  induction l with
  | nil => intro c h; simp at h
  | cons a t ih =>
    intro c h
    by_cases hs : p a = true
    · rw [List.dropWhile_cons_of_pos hs] at h
      exact List.mem_cons_of_mem _ (ih h)
    · rwa [List.dropWhile_cons_of_neg hs] at h

/-- Membership survives stripping. -/
theorem mem_of_mem_stripChars {l : Str} {c : Char} (h : c ∈ stripChars l) : c ∈ l := by
  unfold stripChars at h
  rw [List.mem_reverse] at h
  have h1 := mem_of_mem_dropWhile h
  rw [List.mem_reverse] at h1
  exact mem_of_mem_dropWhile h1

/-- The no-adjacent-whitespace chain survives `dropWhile`. -/
theorem chain'_dropWhile {R : Char → Char → Prop} {p : Char → Bool} :
    ∀ {l : Str}, l.Chain' R → (l.dropWhile p).Chain' R := by
  intro l
  induction l with
  | nil => intro h; exact h
  | cons a t ih =>
    intro h
    by_cases hs : p a = true
    · rw [List.dropWhile_cons_of_pos hs]
      exact ih h.tail
    · rwa [List.dropWhile_cons_of_neg hs]

/-- The no-adjacent-whitespace chain survives reversal. -/
theorem chain'_spacedOK_reverse {l : Str} (h : l.Chain' SpacedOK) :
    l.reverse.Chain' SpacedOK := by
  rw [List.chain'_reverse]
  exact h.imp (fun a b hab => fun ⟨hb, ha⟩ => hab ⟨ha, hb⟩)

/-- The no-adjacent-whitespace chain survives stripping. -/
theorem chain'_stripChars {l : Str} (h : l.Chain' SpacedOK) :
    (stripChars l).Chain' SpacedOK :=
  chain'_spacedOK_reverse (chain'_dropWhile (chain'_spacedOK_reverse (chain'_dropWhile h)))

/-- Appending at the tail: the last element of a cons with nonempty tail. -/
theorem getLast?_cons_of_ne_nil {a : Char} {t : Str} (h : t ≠ []) :
    (a :: t).getLast? = t.getLast? := by
  cases t with
  | nil => exact absurd rfl h
  | cons b t' => rfl

/-- A nonempty `dropWhile` result keeps the last element. -/
theorem getLast?_dropWhile_of_ne_nil {p : Char → Bool} :
    ∀ {l : Str}, l.dropWhile p ≠ [] → (l.dropWhile p).getLast? = l.getLast? := by
  intro l
  induction l with
  | nil => intro h; simp at h
  | cons a t ih =>
    intro h
    by_cases hs : p a = true
    · rw [List.dropWhile_cons_of_pos hs] at h ⊢
      have ht : t ≠ [] := by
        intro ht
        subst ht
        simp at h
      rw [ih h, getLast?_cons_of_ne_nil ht]
    · rw [List.dropWhile_cons_of_neg hs]

/-- The head of a stripped string is not whitespace. -/
theorem head?_stripChars_not_space {l : Str} {c : Char}
    (h : (stripChars l).head? = some c) : isSpaceChar c = false := by
  unfold stripChars at h
  rw [List.head?_reverse] at h
  have hne : (l.dropWhile isSpaceChar).reverse.dropWhile isSpaceChar ≠ [] := by
    intro hnil
    rw [hnil] at h
    simp at h
  rw [getLast?_dropWhile_of_ne_nil hne, List.getLast?_reverse] at h
  exact head?_dropWhile_space _ c h

/-- The last character of a stripped string is not whitespace. -/
theorem getLast?_stripChars_not_space {l : Str} {c : Char}
    (h : (stripChars l).getLast? = some c) : isSpaceChar c = false := by
  unfold stripChars at h
  rw [List.getLast?_reverse] at h
  exact head?_dropWhile_space _ c h

/-- `dropWhile` fixes a string whose head fails the predicate. -/
theorem dropWhile_eq_self_of_head {p : Char → Bool} {l : Str}
    (h : ∀ c, l.head? = some c → p c = false) : l.dropWhile p = l := by
  cases l with
  | nil => rfl
  | cons a t => exact List.dropWhile_cons_of_neg (by simp [h a rfl])

/-- Stripping fixes a string with no whitespace at either end. -/
theorem stripChars_eq_self {l : Str}
    (hhead : ∀ c, l.head? = some c → isSpaceChar c = false)
    (hlast : ∀ c, l.getLast? = some c → isSpaceChar c = false) :
    stripChars l = l := by
  unfold stripChars
  rw [dropWhile_eq_self_of_head hhead]
  rw [dropWhile_eq_self_of_head (fun c hc => hlast c (by rwa [List.head?_reverse] at hc))]
  exact List.reverse_reverse l

/-- The normalizer always lands in the normal form. -/
theorem normalize_text_normalizes (l : Str) : NormalizedForm (normalize_text l) := by
  refine ⟨?_, ?_, ?_, ?_⟩
  · intro c hc
    have hc1 := mem_of_mem_stripChars hc
    rcases collapseWs_chars _ c hc1 with ⟨hmem, hns⟩ | hsp
    · rcases smap_chars l c hmem with h | h
      · exact Or.inl h
      · rw [h] at hns
        cases hns
    · exact Or.inr hsp
  · exact chain'_stripChars (collapseWs_chain _)
  · exact fun c hc => head?_stripChars_not_space hc
  · exact fun c hc => getLast?_stripChars_not_space hc

/-- The normalizer fixes every string in normal form. -/
theorem normalize_text_fixes {l : Str} (h : NormalizedForm l) :
    normalize_text l = l := by
  obtain ⟨hchars, hchain, hhead, hlast⟩ := h
  unfold normalize_text
  rw [smap_fixed l hchars, collapseWs_fixed l hchars hchain,
    stripChars_eq_self hhead hlast]

/-- C9: the text normalizer is a total function (its embedding is a plain
Lean function), maps the empty string to the empty string, and is
idempotent. -/
theorem normalize_text_idempotent :
    normalize_text [] = [] ∧
    ∀ x : Str, normalize_text (normalize_text x) = normalize_text x :=
  ⟨rfl, fun x => normalize_text_fixes (normalize_text_normalizes x)⟩
